import Mathlib

/-!
Verification of the Monte Carlo options pricing engine (src/option_pricing.c,
src/option_pricing.h) against its natural-language specification.

Modelling conventions:
* C doubles are modelled as exact real numbers (`ℝ`); the uniform variates
  `2.0 * u / UINT32_MAX - 1` are exact rationals (`ℚ`), so the rejection test
  of the Gaussian sampler is decidable and fully executable.
* The pseudorandom generator is abstracted as a state type `σ` together with a
  step function `next : σ → ℕ × σ` returning a 32-bit value and the advanced
  state; the PCG32 generator used by the program is one instance.
* The do/while rejection loop of `gaussian_box_muller` has no fixed iteration
  bound, so it is embedded with an explicit fuel parameter and an `Option`
  result: `none` means the fuel was exhausted before a pair was accepted.
* POSIX threads are join-ordered and share no mutable state, so the fan-out /
  join of `main` is modelled by running the workers in launch order.
-/

set_option maxRecDepth 8000

/-- `UINT32_MAX` as a rational: the divisor of the uniform mapping. -/
def uint32_max : ℚ := 4294967295

/-- The mapping `2.0 * u / (double)UINT32_MAX - 1` applied to one 32-bit
draw `u` (src/option_pricing.c, body of `gaussian_box_muller`). -/
def unifQ (u : ℕ) : ℚ := 2 * (u : ℚ) / uint32_max - 1

/-- The loop condition of the do/while in `gaussian_box_muller`
(src/option_pricing.c line 22): keep drawing while `euclid_sq >= 1.0`. -/
def loop_again (s : ℚ) : Bool := decide (1 ≤ s)

/-- Sum of squares of the attempted pair drawn from state `st`: the value
`euclid_sq = x*x + y*y` of one iteration of the rejection loop. -/
def attemptS {σ : Type} (next : σ → ℕ × σ) (st : σ) : ℚ :=
  unifQ (next st).1 * unifQ (next st).1 +
    unifQ (next (next st).2).1 * unifQ (next (next st).2).1

/-- State advance of one iteration of the rejection loop: two draws. -/
def attemptStep {σ : Type} (next : σ → ℕ × σ) (st : σ) : σ :=
  (next (next st).2).2

/-- The rejection loop of `gaussian_box_muller` (src/option_pricing.c lines
18-22), with explicit fuel: draw `x` and `y`, accept the pair unless
`euclid_sq >= 1.0`. On acceptance returns `(x, euclid_sq, state)`. -/
def polarReject {σ : Type} (next : σ → ℕ × σ) : ℕ → σ → Option (ℚ × ℚ × σ)
  | 0, _ => none
  | fuel + 1, st =>
    let x := unifQ (next st).1
    let y := unifQ (next (next st).2).1
    if loop_again (x * x + y * y) then polarReject next fuel (attemptStep next st)
    else some (x, x * x + y * y, attemptStep next st)

/-- The value returned by `gaussian_box_muller` from an accepted pair
`d = (x, euclid_sq)`: `x*sqrt(-2*log(euclid_sq)/euclid_sq)`
(src/option_pricing.c line 24). -/
noncomputable def gaussianOut (d : ℚ × ℚ) : ℝ :=
  (d.1 : ℝ) * Real.sqrt (-2 * Real.log (d.2 : ℝ) / (d.2 : ℝ))

/-- `gaussian_box_muller` (src/option_pricing.c lines 10-25): run the
rejection loop, then apply the output formula to the accepted pair. -/
noncomputable def gaussian_box_muller {σ : Type} (next : σ → ℕ × σ) (fuel : ℕ)
    (st : σ) : Option (ℝ × σ) :=
  match polarReject next fuel st with
  | none => none
  | some (x, s, st1) => some (gaussianOut (x, s), st1)

/-- The sequence of accepted `(x, euclid_sq)` pairs consumed by a worker loop
of `n` iterations, together with the final generator state: one
`gaussian_box_muller` call per iteration, threading the generator state. -/
def sampleRun {σ : Type} (next : σ → ℕ × σ) (fuel : ℕ) :
    ℕ → σ → Option (List (ℚ × ℚ) × σ)
  | 0, st => some ([], st)
  | n + 1, st =>
    match polarReject next fuel st with
    | none => none
    | some (x, s, st1) =>
      match sampleRun next fuel n st1 with
      | none => none
      | some (l, st2) => some ((x, s) :: l, st2)

/-- `pricing_params_t` (src/option_pricing.h lines 15-25), with the generator
state abstracted to a type parameter `σ`. -/
structure PricingParams (σ : Type) where
  num_sims : ℕ
  S : ℝ
  K : ℝ
  r : ℝ
  v : ℝ
  T : ℝ
  rng : σ
  call_payoff_sum : ℝ
  put_payoff_sum : ℝ

/-- `S_adjust = S * exp(T*(r-0.5*v*v))` (src/option_pricing.c lines 28, 42). -/
noncomputable def S_adjust (S r v T : ℝ) : ℝ :=
  S * Real.exp (T * (r - 0.5 * v * v))

/-- `S_cur = S_adjust * exp(sqrt(v*v*T)*gauss_bm)`
(src/option_pricing.c lines 34, 48). -/
noncomputable def S_terminal (S r v T g : ℝ) : ℝ :=
  S_adjust S r v T * Real.exp (Real.sqrt (v * v * T) * g)

/-- Per-path call payoff `MAX(S_cur - K, 0.0)` (src/option_pricing.c line 35). -/
noncomputable def call_payoff (S K r v T g : ℝ) : ℝ :=
  max (S_terminal S r v T g - K) 0

/-- Per-path put payoff `MAX(K - S_cur, 0.0)` (src/option_pricing.c line 49). -/
noncomputable def put_payoff (S K r v T g : ℝ) : ℝ :=
  max (K - S_terminal S r v T g) 0

/-- The accumulation of `monte_carlo_call_payoff_sum`: starting from
`payoff_sum = 0.0`, add the call payoff of each accepted draw in order. -/
noncomputable def callSumFold {σ : Type} (p : PricingParams σ)
    (l : List (ℚ × ℚ)) : ℝ :=
  l.foldl (fun acc d => acc + call_payoff p.S p.K p.r p.v p.T (gaussianOut d)) 0

/-- The accumulation of `monte_carlo_put_payoff_sum`: starting from
`payoff_sum = 0.0`, add the put payoff of each accepted draw in order. -/
noncomputable def putSumFold {σ : Type} (p : PricingParams σ)
    (l : List (ℚ × ℚ)) : ℝ :=
  l.foldl (fun acc d => acc + put_payoff p.S p.K p.r p.v p.T (gaussianOut d)) 0

/-- `monte_carlo_call_payoff_sum` (src/option_pricing.c lines 27-39): run
`num_sims` Gaussian draws starting from the record rng state, and return the
accumulated call payoff sum and the advanced rng state. -/
noncomputable def monte_carlo_call_payoff_sum {σ : Type} (next : σ → ℕ × σ)
    (fuel : ℕ) (p : PricingParams σ) : Option (ℝ × σ) :=
  match sampleRun next fuel p.num_sims p.rng with
  | none => none
  | some (l, st) => some (callSumFold p l, st)

/-- `monte_carlo_put_payoff_sum` (src/option_pricing.c lines 41-53). -/
noncomputable def monte_carlo_put_payoff_sum {σ : Type} (next : σ → ℕ × σ)
    (fuel : ℕ) (p : PricingParams σ) : Option (ℝ × σ) :=
  match sampleRun next fuel p.num_sims p.rng with
  | none => none
  | some (l, st) => some (putSumFold p l, st)

/-- `thread_pricing_wrapper` (src/option_pricing.c lines 56-61): store the
call payoff sum (the call loop advances the rng), then compute the put payoff
sum from the advanced rng, storing it as well. -/
noncomputable def thread_pricing_wrapper {σ : Type} (next : σ → ℕ × σ)
    (fuel : ℕ) (p : PricingParams σ) : Option (PricingParams σ) :=
  match monte_carlo_call_payoff_sum next fuel p with
  | none => none
  | some (cs, st1) =>
    match monte_carlo_put_payoff_sum next fuel
        { p with call_payoff_sum := cs, rng := st1 } with
    | none => none
    | some (ps, st2) =>
      some { p with call_payoff_sum := cs, put_payoff_sum := ps, rng := st2 }

/-- The guard `if (num_threads < 1) num_threads = 1;`
(src/option_pricing.c lines 70-72). -/
def clamp_num_threads (w : ℤ) : ℤ := if w < 1 then 1 else w

/-- `int num_sims = 10000000;` (src/option_pricing.c line 75). -/
def num_sims_requested : ℕ := 10000000

/-- `num_sims = num_sims - (num_sims % num_threads);`
(src/option_pricing.c line 76). -/
def adjusted_num_sims (w : ℕ) : ℕ :=
  num_sims_requested - num_sims_requested % w

/-- `.num_sims = num_sims / num_threads` (src/option_pricing.c line 88),
computed after the adjustment. -/
def per_thread_sims (w : ℕ) : ℕ := adjusted_num_sims w / w

/-- Modelled from the spec: the Pseudorandom Stream component is the included
pcg_basic generator (`pcg32_random_r`), whose source file is not under src/.
The spec describes it as a pure state-transition function producing uniform
32-bit values; we model the standard PCG32 XSH-RR recurrence on a 64-bit
state and odd increment, with all machine arithmetic taken modulo 2^64 and
outputs modulo 2^32. State is the pair (state, inc). -/
def pcg32_random_r (st : ℕ × ℕ) : ℕ × (ℕ × ℕ) :=
  let oldstate := st.1
  let newstate := (oldstate * 6364136223846793005 + st.2) % 18446744073709551616
  let xorshifted := (((oldstate >>> 18) ^^^ oldstate) >>> 27) % 4294967296
  let rot := oldstate >>> 59
  (((xorshifted >>> rot) ||| ((xorshifted <<< ((32 - rot) % 32)) % 4294967296)) % 4294967296,
    (newstate, st.2))

/-- Modelled from the spec: pcg_basic seeding (`pcg32_srandom_r`), not under
src/: set the state to 0 with increment `2*initseq+1`, advance once, add the
seed, advance again. -/
def pcg32_srandom_r (initstate initseq : ℕ) : ℕ × ℕ :=
  let inc := ((initseq <<< 1) ||| 1) % 18446744073709551616
  let st1 := (pcg32_random_r (0, inc)).2
  let st2 := ((st1.1 + initstate) % 18446744073709551616, inc)
  (pcg32_random_r st2).2

/-- Initialization of `thread_params[i]` (src/option_pricing.c lines 87-99):
the shared market parameters, `num_sims / num_threads` simulations, zeroed
payoff sums, and the rng seeded by `pcg32_srandom_r(&rng, base_seed + i, i)`. -/
noncomputable def worker_init (base_seed i per : ℕ) (S K r v T : ℝ) :
    PricingParams (ℕ × ℕ) :=
  { num_sims := per, S := S, K := K, r := r, v := v, T := T,
    rng := pcg32_srandom_r ((base_seed + i) % 18446744073709551616) i,
    call_payoff_sum := 0, put_payoff_sum := 0 }

/-- The fan-out/join of `main` (src/option_pricing.c lines 91-101): every
worker record is processed by `thread_pricing_wrapper`; the workers share no
state, so launch order is observationally equivalent to any schedule. -/
noncomputable def runWorkers {σ : Type} (next : σ → ℕ × σ) (fuel : ℕ) :
    List (PricingParams σ) → Option (List (PricingParams σ))
  | [] => some []
  | p :: ps =>
    match thread_pricing_wrapper next fuel p with
    | none => none
    | some q =>
      match runWorkers next fuel ps with
      | none => none
      | some qs => some (q :: qs)

/-- The aggregation loop for calls (src/option_pricing.c lines 104-110):
`total_call_payoff_sum += thread_params[i].call_payoff_sum` over all workers,
starting from `0.0`. -/
noncomputable def total_call_payoff_sum {σ : Type}
    (ws : List (PricingParams σ)) : ℝ :=
  ws.foldl (fun acc p => acc + p.call_payoff_sum) 0

/-- The aggregation loop for puts (src/option_pricing.c lines 104-110). -/
noncomputable def total_put_payoff_sum {σ : Type}
    (ws : List (PricingParams σ)) : ℝ :=
  ws.foldl (fun acc p => acc + p.put_payoff_sum) 0

/-- `call_price = (total_call_payoff_sum / (double)num_sims) * exp(-r*T)`
(src/option_pricing.c line 115). -/
noncomputable def call_price {σ : Type} (ws : List (PricingParams σ)) (n : ℕ)
    (r T : ℝ) : ℝ :=
  total_call_payoff_sum ws / (n : ℝ) * Real.exp (-r * T)

/-- `put_price = (total_put_payoff_sum / (double)num_sims) * exp(-r*T)`
(src/option_pricing.c line 116). -/
noncomputable def put_price {σ : Type} (ws : List (PricingParams σ)) (n : ℕ)
    (r T : ℝ) : ℝ :=
  total_put_payoff_sum ws / (n : ℝ) * Real.exp (-r * T)

/-- The whole pipeline of `main` (src/option_pricing.c lines 63-116) as a
function of the base seed, worker count, requested total, sampler fuel and
market parameters: adjust the total, build each worker record with its own
seeded stream, run and join every worker, aggregate, discount. -/
noncomputable def runPipeline (base_seed w total fuel : ℕ) (S K r v T : ℝ) :
    Option (ℝ × ℝ) :=
  let sims := total - total % w
  let per := sims / w
  let ws := (List.range w).map fun i => worker_init base_seed i per S K r v T
  match runWorkers pcg32_random_r fuel ws with
  | none => none
  | some joined =>
    some (call_price joined sims r T, put_price joined sims r T)

/-- The hardcoded run of `main`: S=100, K=100, r=0.05, v=0.2, T=1.0,
10,000,000 requested paths (src/option_pricing.c lines 75-82). -/
noncomputable def mainRun (base_seed w fuel : ℕ) : Option (ℝ × ℝ) :=
  runPipeline base_seed w num_sims_requested fuel 100 100 0.05 0.2 1

/-- Spec wording (section 4.3): call payoff `max(S_terminal - K, 0)` with
`S_terminal = S * exp(T*(r-0.5*v*v)) * exp(sqrt(v*v*T)*g)`. -/
noncomputable def spec_call_payoff (S K r v T g : ℝ) : ℝ :=
  max (S * Real.exp (T * (r - 0.5 * v * v)) *
    Real.exp (Real.sqrt (v * v * T) * g) - K) 0

/-- Spec wording (section 4.3): put payoff `max(K - S_terminal, 0)`. -/
noncomputable def spec_put_payoff (S K r v T g : ℝ) : ℝ :=
  max (K - S * Real.exp (T * (r - 0.5 * v * v)) *
    Real.exp (Real.sqrt (v * v * T) * g)) 0

/-- Spec wording (section 4.5): the total call sum is the sum of every
worker record's call payoff sum. -/
noncomputable def spec_total_call {σ : Type} (ws : List (PricingParams σ)) : ℝ :=
  (ws.map fun p => p.call_payoff_sum).sum

/-- Spec wording (section 4.5): the total put sum is the sum of every
worker record's put payoff sum. -/
noncomputable def spec_total_put {σ : Type} (ws : List (PricingParams σ)) : ℝ :=
  (ws.map fun p => p.put_payoff_sum).sum

/-- Concrete 32-bit values fed to the sampler in the concrete runs below:
both pairs are accepted at once, the first with positive `x`, the second
with negative `x`. -/
def valsC2 (k : ℕ) : ℕ :=
  if k = 0 then 3221225472
  else if k = 1 then 2147483648
  else if k = 2 then 1073741824
  else 2147483648

/-- A concrete instance of the abstract generator: the state is the position
in the value sequence `valsC2`. -/
def nextC2 (k : ℕ) : ℕ × ℕ := (valsC2 k, k + 1)

/-- A generator that always outputs 0, so every attempt maps to the pair
(-1, -1) whose sum of squares 2 is rejected, forever. -/
def nextZero (k : ℕ) : ℕ × ℕ := (0, k + 1)

/-- A stateless generator whose constant output maps to a tiny coordinate,
so every attempt is accepted at once. -/
def nextTiny (_ : Unit) : ℕ × Unit := (2147483648, ())

/-- First accepted `x` of the `valsC2` stream (call loop, path 0). -/
def xc0 : ℚ := unifQ 3221225472

/-- First accepted `y` of the `valsC2` stream. -/
def yc0 : ℚ := unifQ 2147483648

/-- First accepted sum of squares of the `valsC2` stream. -/
def sc0 : ℚ := xc0 * xc0 + yc0 * yc0

/-- Second accepted `x` of the `valsC2` stream (put loop, path 0). -/
def xp0 : ℚ := unifQ 1073741824

/-- Second accepted `y` of the `valsC2` stream. -/
def yp0 : ℚ := unifQ 2147483648

/-- Second accepted sum of squares of the `valsC2` stream. -/
def sp0 : ℚ := xp0 * xp0 + yp0 * yp0

/-- A concrete worker record over the position-based generator: one path,
the hardcoded market parameters of `main`, rng at position 0. -/
noncomputable def pC2 : PricingParams ℕ :=
  { num_sims := 1, S := 100, K := 100, r := 0.05, v := 0.2, T := 1,
    rng := 0, call_payoff_sum := 0, put_payoff_sum := 0 }

/-- A concrete worker record with zero assigned simulations. -/
noncomputable def p9 : PricingParams ℕ :=
  { num_sims := 0, S := 100, K := 100, r := 0.05, v := 0.2, T := 1,
    rng := 0, call_payoff_sum := 0, put_payoff_sum := 0 }

/-! ## Helper lemmas -/

/-- Folding payoff accumulation from an arbitrary initial accumulator equals
the initial accumulator plus the sum of the mapped per-item values. -/
theorem foldl_add_eq_add_sum {α : Type} (f : α → ℝ) :
    ∀ (l : List α) (init : ℝ),
      l.foldl (fun acc d => acc + f d) init = init + (l.map f).sum := by
  intro l
  induction l with
  | nil => intro init; simp
  | cons d t ih => intro init; simp [ih, add_assoc]

/-- The mapped uniform `2*u/UINT32_MAX - 1` is never zero: `2*u` is even
while `UINT32_MAX = 4294967295` is odd. -/
theorem unifQ_ne_zero (u : ℕ) : unifQ u ≠ 0 := by
  intro h
  have h2 : (2 * (u : ℚ)) = 4294967295 := by
    unfold unifQ uint32_max at h
    field_simp at h
    linarith
  have h3 : (2 * u : ℕ) = 4294967295 := by exact_mod_cast h2
  omega

/-! ## Claims -/

/-- C1: for every parameter record and Gaussian draw `g`, the path payoff
evaluation inside the worker loops computes `S_adjust = S*exp(T*(r-0.5*v*v))`
then `S_terminal = S_adjust*exp(sqrt(v*v*T)*g)`, yielding call payoff
`max(S_terminal - K, 0)` and put payoff `max(K - S_terminal, 0)`; each loop
iteration adds exactly this pure function of the parameters and the draw to
the accumulator, reading or writing no other state. -/
theorem c1_path_payoff_pure :
    (∀ S K r v T g : ℝ,
        call_payoff S K r v T g = spec_call_payoff S K r v T g ∧
        put_payoff S K r v T g = spec_put_payoff S K r v T g) ∧
    (∀ (σ : Type) (p : PricingParams σ) (l : List (ℚ × ℚ)) (d : ℚ × ℚ),
        callSumFold p (l ++ [d]) =
          callSumFold p l + call_payoff p.S p.K p.r p.v p.T (gaussianOut d) ∧
        putSumFold p (l ++ [d]) =
          putSumFold p l + put_payoff p.S p.K p.r p.v p.T (gaussianOut d)) := by
  constructor
  · intro S K r v T g
    exact ⟨rfl, rfl⟩
  · intro σ p l d
    constructor
    · unfold callSumFold
      rw [List.foldl_append]
      rfl
    · unfold putSumFold
      rw [List.foldl_append]
      rfl


/-- One unfolding of the rejection loop at positive fuel. -/
theorem polarReject_succ {σ : Type} (next : σ → ℕ × σ) (fuel : ℕ) (st : σ) :
    polarReject next (fuel + 1) st =
      if loop_again (attemptS next st) then
        polarReject next fuel (attemptStep next st)
      else some (unifQ (next st).1, attemptS next st, attemptStep next st) := rfl

/-- One unfolding of the worker sampling loop at positive count. -/
theorem sampleRun_succ {σ : Type} (next : σ → ℕ × σ) (fuel n : ℕ) (st : σ) :
    sampleRun next fuel (n + 1) st =
      match polarReject next fuel st with
      | none => none
      | some (x, s, st1) =>
        match sampleRun next fuel n st1 with
        | none => none
        | some (l, st2) => some ((x, s) :: l, st2) := rfl

/-- The first attempted pair of the `valsC2` stream is accepted at once. -/
theorem pr_nextC2_0 : polarReject nextC2 1 0 = some (xc0, sc0, 2) := by
  have hacc : loop_again (attemptS nextC2 0) = false := by
    simp only [loop_again, decide_eq_false_iff_not, not_le]
    norm_num [attemptS, nextC2, valsC2, unifQ, uint32_max]
  show polarReject nextC2 (0 + 1) 0 = some (xc0, sc0, 2)
  rw [polarReject_succ, hacc]
  simp only [Bool.false_eq_true, if_false, xc0, yc0, sc0, attemptS, attemptStep,
    nextC2, valsC2]
  norm_num

/-- The second attempted pair of the `valsC2` stream (positions 2-3) is also
accepted at once. -/
theorem pr_nextC2_2 : polarReject nextC2 1 2 = some (xp0, sp0, 4) := by
  have hacc : loop_again (attemptS nextC2 2) = false := by
    simp only [loop_again, decide_eq_false_iff_not, not_le]
    norm_num [attemptS, nextC2, valsC2, unifQ, uint32_max]
  show polarReject nextC2 (0 + 1) 2 = some (xp0, sp0, 4)
  rw [polarReject_succ, hacc]
  simp only [Bool.false_eq_true, if_false, xp0, yp0, sp0, attemptS, attemptStep,
    nextC2, valsC2]
  norm_num

/-- One-path sampling over `valsC2` from position 0. -/
theorem sr_nextC2_0 : sampleRun nextC2 1 1 0 = some ([(xc0, sc0)], 2) := by
  show sampleRun nextC2 1 (0 + 1) 0 = some ([(xc0, sc0)], 2)
  rw [sampleRun_succ, pr_nextC2_0]
  rfl

/-- One-path sampling over `valsC2` from position 2. -/
theorem sr_nextC2_2 : sampleRun nextC2 1 1 2 = some ([(xp0, sp0)], 4) := by
  show sampleRun nextC2 1 (0 + 1) 2 = some ([(xp0, sp0)], 4)
  rw [sampleRun_succ, pr_nextC2_2]
  rfl

/-- C2 is false of the code: running one path over the concrete stream
`nextC2`, the call loop consumes the accepted pair `(xc0, sc0)` (positions
0-1) while the put loop, started from the state the call loop left, consumes
`(xp0, sp0)` (positions 2-3), and the two Gaussian draws differ (the first is
positive, the second negative), so the call and put payoffs of path 0 are not
computed from the same Gaussian draw or terminal price. -/
theorem c2_counterexample :
    sampleRun nextC2 1 1 0 = some ([(xc0, sc0)], 2) ∧
    sampleRun nextC2 1 1 2 = some ([(xp0, sp0)], 4) ∧
    gaussianOut (xc0, sc0) ≠ gaussianOut (xp0, sp0) := by
  refine ⟨sr_nextC2_0, sr_nextC2_2, ?_⟩
  have hsc0 : (0 : ℚ) < sc0 ∧ sc0 < 1 := by
    constructor <;> norm_num [sc0, xc0, yc0, unifQ, uint32_max]
  have hsp0 : (0 : ℚ) < sp0 ∧ sp0 < 1 := by
    constructor <;> norm_num [sp0, xp0, yp0, unifQ, uint32_max]
  have hxc0 : (0 : ℚ) < xc0 := by norm_num [xc0, unifQ, uint32_max]
  have hxp0 : xp0 < 0 := by norm_num [xp0, unifQ, uint32_max]
  have sqrt_pos_of : ∀ s : ℚ, (0 : ℚ) < s → s < 1 →
      0 < Real.sqrt (-2 * Real.log (s : ℝ) / (s : ℝ)) := by
    intro s h0 h1
    have h0R : (0 : ℝ) < (s : ℝ) := by exact_mod_cast h0
    have h1R : (s : ℝ) < 1 := by exact_mod_cast h1
    apply Real.sqrt_pos.mpr
    apply div_pos _ h0R
    have := Real.log_neg h0R h1R
    linarith
  have hcall : 0 < gaussianOut (xc0, sc0) := by
    unfold gaussianOut
    exact mul_pos (by exact_mod_cast hxc0) (sqrt_pos_of sc0 hsc0.1 hsc0.2)
  have hput : gaussianOut (xp0, sp0) < 0 := by
    unfold gaussianOut
    exact mul_neg_of_neg_of_pos (by exact_mod_cast hxp0)
      (sqrt_pos_of sp0 hsp0.1 hsp0.2)
  intro heq
  rw [heq] at hcall
  linarith

/-- C2 (amended): within a worker the call and put payoff sums are computed
by two separate loops over the same stream: `thread_pricing_wrapper` first
runs the call loop from the record rng state, then runs the put loop from the
rng state the call loop left behind, so for a given path the call and put
payoffs are computed from distinct, freshly consumed Gaussian draws rather
than one shared draw and terminal price. -/
theorem c2_put_loop_uses_fresh_draws :
    ∀ (σ : Type) (next : σ → ℕ × σ) (fuel : ℕ) (p : PricingParams σ)
      (cd : List (ℚ × ℚ)) (st1 : σ) (pd : List (ℚ × ℚ)) (st2 : σ),
      sampleRun next fuel p.num_sims p.rng = some (cd, st1) →
      sampleRun next fuel p.num_sims st1 = some (pd, st2) →
      thread_pricing_wrapper next fuel p =
        some { p with call_payoff_sum := callSumFold p cd,
                      put_payoff_sum := putSumFold p pd, rng := st2 } := by
  intro σ next fuel p cd st1 pd st2 h1 h2
  unfold thread_pricing_wrapper monte_carlo_call_payoff_sum
    monte_carlo_put_payoff_sum
  simp only [h1]
  simp only [putSumFold]
  simp only [h2]

/-- C2 amended witness: the concrete one-path run over `nextC2`. -/
theorem c2_put_loop_uses_fresh_draws_witness :
    sampleRun nextC2 1 pC2.num_sims pC2.rng = some ([(xc0, sc0)], 2) ∧
    sampleRun nextC2 1 pC2.num_sims 2 = some ([(xp0, sp0)], 4) ∧
    thread_pricing_wrapper nextC2 1 pC2 =
      some { pC2 with call_payoff_sum := callSumFold pC2 [(xc0, sc0)],
                      put_payoff_sum := putSumFold pC2 [(xp0, sp0)],
                      rng := 4 } := by
  have h1 : sampleRun nextC2 1 pC2.num_sims pC2.rng = some ([(xc0, sc0)], 2) :=
    sr_nextC2_0
  have h2 : sampleRun nextC2 1 pC2.num_sims 2 = some ([(xp0, sp0)], 4) :=
    sr_nextC2_2
  exact ⟨h1, h2,
    c2_put_loop_uses_fresh_draws ℕ nextC2 1 pC2 [(xc0, sc0)] 2 [(xp0, sp0)] 4 h1 h2⟩

/-- C3 is false as stated: the acceptance test of the rejection loop is only
the negation of the loop condition `euclid_sq >= 1.0`; applied to `s = 0`
(and even to a negative `s`) it accepts, so the test does not explicitly
exclude `s <= 0` from acceptance. -/
theorem c3_counterexample : loop_again 0 = false ∧ loop_again (-1) = false := by
  constructor <;> (simp only [loop_again, decide_eq_false_iff_not, not_le]; norm_num)

/-- C3 (amended): the acceptance test only rejects `s >= 1` and does not test
`s <= 0`; nevertheless each coordinate `2*u/UINT32_MAX - 1` is nonzero for
every integer `u`, so every attempted sum of squares is positive, hence an
accepted pair always has `s` in the open interval (0, 1) and the value
`x*sqrt(-2*log(s)/s)` returned on acceptance is never evaluated with
`s = 0`. -/
theorem c3_accepted_s_in_unit_interval :
    ∀ (σ : Type) (next : σ → ℕ × σ) (fuel : ℕ) (st : σ) (x s : ℚ) (st1 : σ),
      polarReject next fuel st = some (x, s, st1) →
      0 < s ∧ s < 1 ∧ x ≠ 0 := by
  intro σ next fuel
  induction fuel with
  | zero =>
    intro st x s st1 h
    exact absurd h (by simp [polarReject])
  | succ fuel ih =>
    intro st x s st1 h
    rw [polarReject_succ] at h
    by_cases hc : loop_again (attemptS next st) = true
    · rw [if_pos hc] at h
      exact ih _ _ _ _ h
    · rw [if_neg hc] at h
      have hs1 : attemptS next st < 1 := by
        simpa [loop_again] using hc
      have hx0 : unifQ (next st).1 ≠ 0 := unifQ_ne_zero _
      have hs0 : 0 < attemptS next st := by
        unfold attemptS
        have h1 : 0 < unifQ (next st).1 * unifQ (next st).1 :=
          mul_self_pos.mpr hx0
        have h2 : 0 ≤ unifQ (next (next st).2).1 * unifQ (next (next st).2).1 :=
          mul_self_nonneg _
        linarith
      have h' := Option.some.inj h
      have hx : unifQ (next st).1 = x := congrArg Prod.fst h'
      have hs : attemptS next st = s := congrArg (fun t => t.2.1) h'
      subst hx
      subst hs
      exact ⟨hs0, hs1, hx0⟩

/-- C3 amended witness: the first accepted pair of the `valsC2` stream. -/
theorem c3_accepted_s_in_unit_interval_witness :
    polarReject nextC2 1 0 = some (xc0, sc0, 2) ∧
    (0 < sc0 ∧ sc0 < 1 ∧ xc0 ≠ 0) :=
  ⟨pr_nextC2_0, c3_accepted_s_in_unit_interval ℕ nextC2 1 0 xc0 sc0 2 pr_nextC2_0⟩

/-- C4: for every worker count `w >= 1` and the requested total
`n = 10,000,000`, the driver adjusts `n` to `n - (n mod w)`, each worker is
assigned exactly `(n - (n mod w)) / w` simulations, the product of the
per-worker count with the worker count equals the adjusted total used as the
discounting divisor, and that total equals the sum of the per-worker counts
actually executed. -/
theorem c4_partition_exact :
    ∀ w : ℕ, 1 ≤ w →
      per_thread_sims w * w = adjusted_num_sims w ∧
      (List.replicate w (per_thread_sims w)).sum = adjusted_num_sims w ∧
      adjusted_num_sims w = num_sims_requested - num_sims_requested % w := by
  intro w hw
  have hw0 : 0 < w := hw
  have key : adjusted_num_sims w = w * (num_sims_requested / w) := by
    have := Nat.mod_add_div num_sims_requested w
    unfold adjusted_num_sims
    omega
  have hper : per_thread_sims w = num_sims_requested / w := by
    unfold per_thread_sims
    rw [key]
    exact Nat.mul_div_cancel_left _ hw0
  refine ⟨?_, ?_, rfl⟩
  · rw [hper, key, Nat.mul_comm]
  · rw [List.sum_replicate, smul_eq_mul, hper, key]

/-- C4 witness: three workers, a count not divisible by three. -/
theorem c4_partition_exact_witness :
    per_thread_sims 3 * 3 = adjusted_num_sims 3 ∧
    (List.replicate 3 (per_thread_sims 3)).sum = adjusted_num_sims 3 ∧
    adjusted_num_sims 3 = num_sims_requested - num_sims_requested % 3 :=
  c4_partition_exact 3 (by norm_num)

/-- C5: the final prices are computed from the aggregated sums as
`call_price = (total_call_sum / total_sims) * exp(-r*T)` and
`put_price = (total_put_sum / total_sims) * exp(-r*T)`, where the totals are
the sums of every worker record's call and put payoff sums; and the pipeline
computes them exactly once, after all workers are joined. -/
theorem c5_prices_from_aggregated_sums :
    (∀ (σ : Type) (ws : List (PricingParams σ)) (n : ℕ) (r T : ℝ),
        call_price ws n r T = spec_total_call ws / (n : ℝ) * Real.exp (-r * T) ∧
        put_price ws n r T = spec_total_put ws / (n : ℝ) * Real.exp (-r * T)) ∧
    (∀ (base_seed w total fuel : ℕ) (S K r v T : ℝ),
        runPipeline base_seed w total fuel S K r v T =
          Option.map (fun joined =>
              (call_price joined (total - total % w) r T,
               put_price joined (total - total % w) r T))
            (runWorkers pcg32_random_r fuel
              ((List.range w).map fun i =>
                worker_init base_seed i ((total - total % w) / w) S K r v T))) := by
  constructor
  · intro σ ws n r T
    constructor
    · unfold call_price total_call_payoff_sum spec_total_call
      rw [foldl_add_eq_add_sum]
      rw [zero_add]
    · unfold put_price total_put_payoff_sum spec_total_put
      rw [foldl_add_eq_add_sum]
      rw [zero_add]
  · intro base_seed w total fuel S K r v T
    simp only [runPipeline]
    cases h : runWorkers pcg32_random_r fuel
        ((List.range w).map fun i =>
          worker_init base_seed i ((total - total % w) / w) S K r v T) with
    | none => rfl
    | some joined => rfl

/-- C6: for every worker, each payoff accumulator starts at 0, is
non-negative after every iteration, and is monotonically non-decreasing as
paths are added, because each added payoff is floored at 0. -/
theorem c6_payoff_sums_nonneg_monotone :
    ∀ (σ : Type) (p : PricingParams σ),
      (callSumFold p ([] : List (ℚ × ℚ)) = 0 ∧ putSumFold p [] = 0) ∧
      (∀ l : List (ℚ × ℚ), 0 ≤ callSumFold p l ∧ 0 ≤ putSumFold p l) ∧
      (∀ (l : List (ℚ × ℚ)) (d : ℚ × ℚ),
        callSumFold p l ≤ callSumFold p (l ++ [d]) ∧
        putSumFold p l ≤ putSumFold p (l ++ [d])) := by
  intro σ p
  have hcall : ∀ l : List (ℚ × ℚ), callSumFold p l =
      (l.map fun d => call_payoff p.S p.K p.r p.v p.T (gaussianOut d)).sum := by
    intro l
    unfold callSumFold
    rw [foldl_add_eq_add_sum, zero_add]
  have hput : ∀ l : List (ℚ × ℚ), putSumFold p l =
      (l.map fun d => put_payoff p.S p.K p.r p.v p.T (gaussianOut d)).sum := by
    intro l
    unfold putSumFold
    rw [foldl_add_eq_add_sum, zero_add]
  have hcp : ∀ d : ℚ × ℚ, 0 ≤ call_payoff p.S p.K p.r p.v p.T (gaussianOut d) :=
    fun d => le_max_right _ 0
  have hpp : ∀ d : ℚ × ℚ, 0 ≤ put_payoff p.S p.K p.r p.v p.T (gaussianOut d) :=
    fun d => le_max_right _ 0
  refine ⟨⟨rfl, rfl⟩, ?_, ?_⟩
  · intro l
    rw [hcall, hput]
    constructor
    · exact List.sum_nonneg (by
        intro a ha
        obtain ⟨d, _, rfl⟩ := List.mem_map.mp ha
        exact hcp d)
    · exact List.sum_nonneg (by
        intro a ha
        obtain ⟨d, _, rfl⟩ := List.mem_map.mp ha
        exact hpp d)
  · intro l d
    rw [hcall, hcall, hput, hput, List.map_append, List.map_append,
      List.sum_append, List.sum_append]
    constructor
    · simpa using hcp d
    · simpa using hpp d

/-- C7: for a fixed base seed and worker count, the whole pipeline (seeding,
per-worker simulation loops, aggregation, discounting) is a deterministic
function of the seed, the worker count and the parameters: two executions
with identical inputs produce identical call and put prices. -/
theorem c7_pipeline_deterministic :
    ∀ (base_seed w total fuel : ℕ) (S K r v T : ℝ) (c1 p1 c2 p2 : ℝ),
      runPipeline base_seed w total fuel S K r v T = some (c1, p1) →
      runPipeline base_seed w total fuel S K r v T = some (c2, p2) →
      c1 = c2 ∧ p1 = p2 := by
  intro base_seed w total fuel S K r v T c1 p1 c2 p2 h1 h2
  rw [h1] at h2
  have h3 := Option.some.inj h2
  exact ⟨congrArg Prod.fst h3, congrArg Prod.snd h3⟩

/-- C7 witness: a concrete successful pipeline run, used twice. -/
theorem c7_pipeline_deterministic_witness :
    runPipeline 42 1 0 1 0 0 0 0 0 = some (0, 0) ∧
    ((0 : ℝ) = 0 ∧ (0 : ℝ) = 0) := by
  have h : runPipeline 42 1 0 1 0 0 0 0 0 = some (0, 0) := by
    simp [runPipeline, runWorkers, thread_pricing_wrapper,
      monte_carlo_call_payoff_sum, monte_carlo_put_payoff_sum, worker_init,
      sampleRun, callSumFold, putSumFold, call_price, put_price,
      total_call_payoff_sum, total_put_payoff_sum, List.range_succ, List.range_zero]
  exact ⟨h, c7_pipeline_deterministic 42 1 0 1 0 0 0 0 0 0 0 0 0 h h⟩

/-- C8: a worker loop assigned `n` simulations performs exactly `n`
iterations with no early exit or failure path, provided each embedded
Gaussian-sampler call terminates (first two conjuncts); the sampler's inner
rejection loop terminates exactly when some attempt in the stream it consumes
is accepted, and it has no fixed iteration bound: a stream of zeros is
rejected forever, whatever the fuel (last two conjuncts). -/
theorem c8_trip_count_and_rejection_termination :
    (∀ (σ : Type) (next : σ → ℕ × σ) (fuel n : ℕ) (st : σ)
        (l : List (ℚ × ℚ)) (st1 : σ),
        sampleRun next fuel n st = some (l, st1) → l.length = n) ∧
    (∀ (σ : Type) (next : σ → ℕ × σ) (fuel n : ℕ) (st : σ),
        (∀ st0 : σ, (polarReject next fuel st0).isSome = true) →
        ∃ l st1, sampleRun next fuel n st = some (l, st1) ∧ l.length = n) ∧
    (∀ (σ : Type) (next : σ → ℕ × σ) (fuel : ℕ) (st : σ),
        (polarReject next fuel st).isSome = true ↔
          ∃ j, j < fuel ∧ attemptS next ((attemptStep next)^[j] st) < 1) ∧
    (∀ fuel k, polarReject nextZero fuel k = none) := by
  refine ⟨?_, ?_, ?_, ?_⟩
  · intro σ next fuel n
    induction n with
    | zero =>
      intro st l st1 h
      injection h with h'
      have := congrArg Prod.fst h'
      simp only at this
      rw [← this]
      rfl
    | succ n ih =>
      intro st l st1 h
      rw [sampleRun_succ] at h
      cases hp : polarReject next fuel st with
      | none => rw [hp] at h; exact absurd h (by simp)
      | some v =>
        obtain ⟨x, s, st'⟩ := v
        simp only [hp] at h
        cases hs : sampleRun next fuel n st' with
        | none => rw [hs] at h; exact absurd h (by simp)
        | some w2 =>
          obtain ⟨l', st2⟩ := w2
          simp only [hs, Option.some.injEq, Prod.mk.injEq] at h
          obtain ⟨hl, hst⟩ := h
          rw [← hl]
          simp [ih _ _ _ hs]
  · intro σ next fuel n
    induction n with
    | zero =>
      intro st hall
      exact ⟨[], st, rfl, rfl⟩
    | succ n ih =>
      intro st hall
      obtain ⟨v, hv⟩ := Option.isSome_iff_exists.mp (hall st)
      obtain ⟨x, s, st'⟩ := v
      obtain ⟨l, st1, hrec, hlen⟩ := ih st' hall
      refine ⟨(x, s) :: l, st1, ?_, by simp [hlen]⟩
      rw [sampleRun_succ]
      simp only [hv, hrec]
  · intro σ next fuel
    induction fuel with
    | zero =>
      intro st
      simp [polarReject]
    | succ fuel ih =>
      intro st
      rw [polarReject_succ]
      by_cases hc : loop_again (attemptS next st) = true
      · rw [if_pos hc]
        rw [ih (attemptStep next st)]
        constructor
        · rintro ⟨j, hj, hacc⟩
          exact ⟨j + 1, by omega, by rwa [Function.iterate_succ_apply]⟩
        · rintro ⟨j, hj, hacc⟩
          cases j with
          | zero =>
            exfalso
            simp only [Function.iterate_zero, id_eq] at hacc
            simp only [loop_again, decide_eq_true_eq] at hc
            linarith
          | succ j =>
            refine ⟨j, by omega, ?_⟩
            rwa [Function.iterate_succ_apply] at hacc
      · rw [if_neg hc]
        simp only [Option.isSome_some, true_iff]
        refine ⟨0, Nat.succ_pos _, ?_⟩
        simp only [Function.iterate_zero, id_eq]
        simp only [loop_again, decide_eq_true_eq] at hc
        exact lt_of_not_le hc
  · intro fuel
    induction fuel with
    | zero => intro k; rfl
    | succ fuel ih =>
      intro k
      rw [polarReject_succ]
      have hc : loop_again (attemptS nextZero k) = true := by
        simp only [loop_again, decide_eq_true_eq]
        norm_num [attemptS, nextZero, unifQ, uint32_max]
      rw [if_pos hc]
      exact ih _

/-- C8 witness: the concrete zero-count run, a two-path run over the
always-accepting stream `nextTiny`, and the always-rejecting stream. -/
theorem c8_trip_count_and_rejection_termination_witness :
    sampleRun nextZero 1 0 0 = some ([], 0) ∧
    ([] : List (ℚ × ℚ)).length = 0 ∧
    (∃ l st1, sampleRun nextTiny 1 2 () = some (l, st1) ∧ l.length = 2) ∧
    polarReject nextZero 5 0 = none := by
  have hall : ∀ st0 : Unit, (polarReject nextTiny 1 st0).isSome = true := by
    intro st0
    show (polarReject nextTiny (0 + 1) st0).isSome = true
    rw [polarReject_succ]
    have hc : loop_again (attemptS nextTiny st0) = false := by
      simp only [loop_again, decide_eq_false_iff_not, not_le]
      norm_num [attemptS, nextTiny, unifQ, uint32_max]
    rw [if_neg (by simp [hc])]
    rfl
  exact ⟨rfl,
    c8_trip_count_and_rejection_termination.1 ℕ nextZero 1 0 0 [] 0 rfl,
    c8_trip_count_and_rejection_termination.2.1 Unit nextTiny 1 2 () hall,
    c8_trip_count_and_rejection_termination.2.2.2 5 0⟩

/-- C9: `thread_pricing_wrapper` mutates only the `call_payoff_sum`,
`put_payoff_sum` and `rng` fields of its record: `num_sims`, `S`, `K`, `r`,
`v` and `T` hold the same values after the call as before it (and the
wrapper is a function of the one record it receives, so no other worker
record is read or written). -/
theorem c9_wrapper_frame :
    ∀ (σ : Type) (next : σ → ℕ × σ) (fuel : ℕ) (p q : PricingParams σ),
      thread_pricing_wrapper next fuel p = some q →
      q.num_sims = p.num_sims ∧ q.S = p.S ∧ q.K = p.K ∧
      q.r = p.r ∧ q.v = p.v ∧ q.T = p.T := by
  intro σ next fuel p q h
  unfold thread_pricing_wrapper at h
  cases h1 : monte_carlo_call_payoff_sum next fuel p with
  | none => rw [h1] at h; exact absurd h (by simp)
  | some v =>
    obtain ⟨cs, st1⟩ := v
    simp only [h1] at h
    cases h2 : monte_carlo_put_payoff_sum next fuel
        { p with call_payoff_sum := cs, rng := st1 } with
    | none => rw [h2] at h; exact absurd h (by simp)
    | some v2 =>
      obtain ⟨ps, st2⟩ := v2
      simp only [h2, Option.some.injEq] at h
      rw [← h]
      exact ⟨rfl, rfl, rfl, rfl, rfl, rfl⟩

/-- C9 witness: a worker record with zero assigned simulations. -/
theorem c9_wrapper_frame_witness :
    thread_pricing_wrapper nextZero 1 p9 = some p9 ∧
    (p9.num_sims = p9.num_sims ∧ p9.S = p9.S ∧ p9.K = p9.K ∧
     p9.r = p9.r ∧ p9.v = p9.v ∧ p9.T = p9.T) := by
  have h : thread_pricing_wrapper nextZero 1 p9 = some p9 := rfl
  exact ⟨h, c9_wrapper_frame ℕ nextZero 1 p9 p9 h⟩

/-- C10: the driver guard only enforces a lower bound of 1 on the worker
count; for every worker count between 1 and 10,000,000 the adjusted
simulation count is strictly positive, but for any worker count above
10,000,000 the adjusted count is 0, so the divisor cast used by the final
price computation is zero and both final prices divide by zero. -/
theorem c10_thread_guard_and_zero_divisor :
    (∀ w : ℤ, 1 ≤ w → clamp_num_threads w = w) ∧
    (∀ w : ℕ, 1 ≤ w → w ≤ num_sims_requested → 0 < adjusted_num_sims w) ∧
    (∀ w : ℕ, num_sims_requested < w →
        adjusted_num_sims w = 0 ∧ ((adjusted_num_sims w : ℝ) = 0)) := by
  refine ⟨?_, ?_, ?_⟩
  · intro w hw
    unfold clamp_num_threads
    rw [if_neg (by omega)]
  · intro w h1 h2
    have hm : num_sims_requested % w < w := Nat.mod_lt _ (by omega)
    unfold adjusted_num_sims
    exact Nat.sub_pos_of_lt (lt_of_lt_of_le hm h2)
  · intro w hw
    have h0 : adjusted_num_sims w = 0 := by
      unfold adjusted_num_sims
      rw [Nat.mod_eq_of_lt hw]
      exact Nat.sub_self _
    exact ⟨h0, by rw [h0]; exact Nat.cast_zero⟩

/-- C10 witness: worker counts 4 and 5 behave, 10,000,001 yields a zero
divisor. -/
theorem c10_thread_guard_and_zero_divisor_witness :
    clamp_num_threads 4 = 4 ∧
    0 < adjusted_num_sims 5 ∧
    (adjusted_num_sims 10000001 = 0 ∧ ((adjusted_num_sims 10000001 : ℝ) = 0)) :=
  ⟨c10_thread_guard_and_zero_divisor.1 4 (by norm_num),
   c10_thread_guard_and_zero_divisor.2.1 5 (by norm_num)
     (by norm_num [num_sims_requested]),
   c10_thread_guard_and_zero_divisor.2.2 10000001
     (by norm_num [num_sims_requested])⟩
